import Mathlib

/-!
# Verification of the statig hierarchical state machine core

Shallow embedding of `src/statig/src/awaitable/superstate.rs` and the blinky
example (`src/examples/macro/blinky/src/main.rs`).

A superstate value in the Rust source is one variant of a generated enum; the
variant identity is its `discriminant`, the variant may carry borrowed data,
and `superstate()` returns the parent variant (`Option`).  We embed a
superstate together with the chain of its ancestors as an inductive `Chain`:
each level carries its variant identity (`kind`, the discriminant), the opaque
payload the variant may carry, the `Response` its handler returns for the
event of the current dispatch (handlers are opaque user code; only their
returned `Response` steers the core), and optionally its parent level.
Entry/exit actions and the `on_dispatch` hook are opaque user code as well;
we record their invocations as a trace of `Ev` events, which is the
observable the spec talks about.
-/

set_option autoImplicit false

namespace Statig

/-- `Response<S>`: the three-way outcome of handling an event at one level
(`src/statig/src/lib.rs`, used throughout `superstate.rs`). -/
inductive Response (σ : Type) : Type where
  | handled : Response σ
  | super : Response σ
  | transition : σ → Response σ
deriving DecidableEq

/-- Observable events of a dispatch/transition: the `ON_DISPATCH` hook firing
for a level, a level's handler being invoked, an entry action, an exit action,
and the `on_transition` hook. -/
inductive Ev (κ : Type) : Type where
  | dispatchHook : κ → Ev κ
  | handlerRun : κ → Ev κ
  | entry : κ → Ev κ
  | exit : κ → Ev κ
  | transitionHook : κ → κ → Ev κ
deriving DecidableEq

/-- A superstate level together with its ancestor chain.  `κ` is the type of
variant identities (discriminants), `δ` the opaque payload a variant may
carry, `σ` the type of transition targets.  `root` is a level whose
`superstate()` is `None`; `node` is a level with a parent.  In the Rust
source the chain is given implicitly by the generated `superstate()`
method of the enum. -/
inductive Chain (κ δ σ : Type) : Type where
  | root : κ → δ → Response σ → Chain κ δ σ
  | node : κ → δ → Response σ → Chain κ δ σ → Chain κ δ σ
deriving DecidableEq

namespace Chain

variable {κ δ σ : Type}

/-- The variant identity (discriminant) of a level. -/
def kind : Chain κ δ σ → κ
  | .root k _ _ => k
  | .node k _ _ _ => k

/-- The opaque payload a variant carries. -/
def payload : Chain κ δ σ → δ
  | .root _ d _ => d
  | .node _ d _ _ => d

/-- The `Response` this level's handler returns for the dispatched event. -/
def resp : Chain κ δ σ → Response σ
  | .root _ _ r => r
  | .node _ _ r _ => r

/-- `Superstate::superstate` (superstate.rs:31-36): the parent level, if any. -/
def superstate : Chain κ δ σ → Option (Chain κ δ σ)
  | .root _ _ _ => none
  | .node _ _ _ p => some p

/-- `SuperstateExt::same_state` (superstate.rs:47-58): compares two
superstate values by `discriminant` only, i.e. by `kind`; the payload (the
borrowed data a variant carries) never enters the comparison. -/
def same_state [DecidableEq κ] (lhs rhs : Chain κ δ σ) : Bool :=
  decide (kind lhs = kind rhs)

/-- `SuperstateExt::depth` (superstate.rs:61-66): 1 for a level whose
`superstate()` is `None`, else 1 + depth of the parent. -/
def depth : Chain κ δ σ → Nat
  | .root _ _ _ => 1
  | .node _ _ _ p => depth p + 1

/-- `SuperstateExt::common_ancestor_depth` (superstate.rs:69-90): match on
`source.depth().cmp(&target.depth())`; when equal, compare by
`same_state`, returning the shared depth on a match and recursing on both
parents otherwise (0 when either has none); when one side is deeper,
recurse on its parent (0 when it has none). -/
def common_ancestor_depth [DecidableEq κ] :
    Chain κ δ σ → Chain κ δ σ → Nat
  | source, target =>
    match compare (depth source) (depth target) with
    | .eq =>
      if same_state source target then depth source
      else
        match source, target with
        | .node _ _ _ ps, .node _ _ _ pt => common_ancestor_depth ps pt
        | _, _ => 0
    | .gt =>
      match source with
      | .node _ _ _ ps => common_ancestor_depth ps target
      | .root _ _ _ => 0
    | .lt =>
      match target with
      | .node _ _ _ pt => common_ancestor_depth source pt
      | .root _ _ _ => 0

/-- `SuperstateExt::handle` (superstate.rs:93-123): run the level's handler;
`Handled` and `Transition` are returned as is; on `Super`, if a parent
exists, fire `ON_DISPATCH` for the parent and recurse into it, otherwise
return `Super`.  The trace records the handler invocations and hook
firings in order. -/
def handle : Chain κ δ σ → List (Ev κ) × Response σ
  | .root k _ r =>
    match r with
    | .handled => ([Ev.handlerRun k], .handled)
    | .super => ([Ev.handlerRun k], .super)
    | .transition s => ([Ev.handlerRun k], .transition s)
  | .node k _ r p =>
    match r with
    | .handled => ([Ev.handlerRun k], .handled)
    | .transition s => ([Ev.handlerRun k], .transition s)
    | .super =>
      let rest := handle p
      (Ev.handlerRun k :: Ev.dispatchHook (kind p) :: rest.1, rest.2)

/-- `SuperstateExt::enter` (superstate.rs:127-147): with `levels = 0` do
nothing; with `levels = 1` run this level's entry action; otherwise first
recurse into the parent (if any) with `levels - 1`, then run this level's
entry action. -/
def enter : Chain κ δ σ → Nat → List (Ev κ)
  | _, 0 => []
  | c, 1 => [Ev.entry (kind c)]
  | c, levels + 2 =>
    (match c with
     | .node _ _ _ p => enter p (levels + 1)
     | .root _ _ _ => []) ++ [Ev.entry (kind c)]

/-- `SuperstateExt::exit` (superstate.rs:151-171): with `levels = 0` do
nothing; with `levels = 1` run this level's exit action; otherwise run this
level's exit action first, then recurse into the parent (if any) with
`levels - 1`. -/
def exit : Chain κ δ σ → Nat → List (Ev κ)
  | _, 0 => []
  | c, 1 => [Ev.exit (kind c)]
  | c, levels + 2 =>
    Ev.exit (kind c) ::
      (match c with
       | .node _ _ _ p => exit p (levels + 1)
       | .root _ _ _ => [])

/-- `impl Superstate for ()`: `call_handler` of the implicit top
(superstate.rs:181-188) returns `Response::Handled`. -/
def unitCallHandler : Response σ := Response.handled

/-- The list of variant identities from a level up to its root
(leaf-to-root order). -/
def kindsToRoot : Chain κ δ σ → List κ
  | .root k _ _ => [k]
  | .node k _ _ p => k :: kindsToRoot p

/-- The tail of the leaf-to-root kind list: the kinds of the proper
ancestors. -/
def kindsTail : Chain κ δ σ → List κ
  | .root _ _ _ => []
  | .node _ _ _ p => kindsToRoot p

/-- The list of levels from a level up to its root (leaf-to-root order). -/
def levelsToRoot : Chain κ δ σ → List (Chain κ δ σ)
  | .root k d r => [.root k d r]
  | .node k d r p => .node k d r p :: levelsToRoot p

/-- Whether a response defers to the parent. -/
def isSuper : Response σ → Bool
  | .super => true
  | _ => false

/-- Spec reading of the simultaneous-climb algorithm, on two already-aligned
equal-length kind lists: the first level (from the leaf end) at which the
kinds match yields as common-ancestor depth the length of the remaining
list there; if no level matches, 0. -/
def firstMatchDepth [DecidableEq κ] : List κ → List κ → Nat
  | a :: as, b :: bs => if a = b then as.length + 1 else firstMatchDepth as bs
  | _, _ => 0

/-- Spec reading of `common_ancestor_depth` (spec §4.2 step 2): take both
leaf-to-root kind lists, discard levels of the deeper chain until both have
the common length, then scan both simultaneously for the first
variant-identity match; its depth is the result, 0 if none. -/
def cadSpec [DecidableEq κ] (source target : Chain κ δ σ) : Nat :=
  let ls := kindsToRoot source
  let lt := kindsToRoot target
  let m := min ls.length lt.length
  firstMatchDepth (ls.drop (ls.length - m)) (lt.drop (lt.length - m))

/-- Modelled from the spec: the outer dispatch entry point (the state
machine's `handle`, not under src/) fires `on_dispatch` for the current
leaf before invoking its handler (spec §4.1 steps 1-2), then lets the
chain handle the event. -/
def dispatch (c : Chain κ δ σ) : List (Ev κ) × Response σ :=
  (Ev.dispatchHook (kind c) :: (handle c).1, (handle c).2)

/-- Modelled from the spec: the state machine inspects the final response of
a dispatch; only `Transition` changes the current state (spec §4.1 steps
3-5, §4.2 step 5) — `Handled` and a `Super` that reached the root leave it
unchanged. -/
def outcome : Response σ → Option σ
  | .transition s => some s
  | _ => none

/-- The levels whose handlers a dispatch visits, read off the spec: the
longest prefix of the chain that answers `Super`, plus the first level
after it (the one that answers `Handled` or `Transition`), if any. -/
def visitedSpec (c : Chain κ δ σ) : List (Chain κ δ σ) :=
  (levelsToRoot c).takeWhile (fun l => isSuper (resp l)) ++
    ((levelsToRoot c).dropWhile (fun l => isSuper (resp l))).take 1

/-- The response a dispatch returns, read off the spec: the response of the
first level that does not defer to its parent; `Super` when every level
defers (the event reached past the root). -/
def finalRespSpec (c : Chain κ δ σ) : Response σ :=
  match ((levelsToRoot c).dropWhile (fun l => isSuper (resp l))).head? with
  | some l => resp l
  | none => Response.super

/-- Modelled from the spec: `init()` (state machine code, not under src/)
runs the entry phase as if transitioning from common-ancestor depth 0 down
to the declared initial leaf (spec §4.3), i.e. `enter` over the full depth
of the initial chain; it does not fire `on_transition`. -/
def initTrace (c : Chain κ δ σ) : List (Ev κ) :=
  enter c (depth c)

end Chain

namespace Graph

variable {κ : Type}

/-- `SuperstateExt::depth` read directly over the declaration graph:
`parent` is the `superstate()` link on variant identities, which in a
well-formed machine determines the whole chain.  The Rust recursion
carries no fuel; the fuel parameter here makes the divergence the
recursion would exhibit on a cyclic graph observable as `none` (no amount
of fuel suffices), while on an acyclic graph enough fuel always yields
`some` — the same recursion as superstate.rs:61-66 otherwise. -/
def depthFuel (parent : κ → Option κ) : Nat → κ → Option Nat
  | 0, _ => none
  | fuel + 1, k =>
    match parent k with
    | none => some 1
    | some p => (depthFuel parent fuel p).map (· + 1)

/-- `SuperstateExt::common_ancestor_depth` (superstate.rs:69-90) read over
the declaration graph, fuel-instrumented like `depthFuel`; `same_state`
becomes equality of variant identities. -/
def cadFuel (parent : κ → Option κ) [DecidableEq κ] :
    Nat → κ → κ → Option Nat
  | 0, _, _ => none
  | fuel + 1, s, t =>
    match depthFuel parent (fuel + 1) s, depthFuel parent (fuel + 1) t with
    | some ds, some dt =>
      match compare ds dt with
      | .eq =>
        if s = t then some ds
        else
          match parent s, parent t with
          | some ps, some pt => cadFuel parent fuel ps pt
          | _, _ => some 0
      | .gt =>
        match parent s with
        | some ps => cadFuel parent fuel ps t
        | none => some 0
      | .lt =>
        match parent t with
        | some pt => cadFuel parent fuel s pt
        | none => some 0
    | _, _ => none

end Graph

/-- A two-variant acyclic declaration graph: variant `1` sits under
variant `0`, which is a root. -/
def parentAcyclic : Fin 2 → Option (Fin 2) :=
  fun k => if k = 1 then some 0 else none

/-- A rank function exhibiting the acyclicity of `parentAcyclic`. -/
def rankAcyclic : Fin 2 → Nat := fun k => k.val

/-- A cyclic declaration graph: the single variant is its own superstate. -/
def parentCyclic : Fin 1 → Option (Fin 1) := fun _ => some 0

/-- The infinite parent walk witnessing the cycle of `parentCyclic`. -/
def cycleWalk : Nat → Fin 1 := fun _ => 0

/-- Variant identities of the blinky example
(`src/examples/macro/blinky/src/main.rs`): states `led_on`, `led_off`
(both under superstate `blinking`), `not_blinking`, and the superstate
`blinking`. -/
inductive BlinkyKind : Type where
  | led_on : BlinkyKind
  | led_off : BlinkyKind
  | blinking : BlinkyKind
  | not_blinking : BlinkyKind
deriving DecidableEq

/-- The initial chain of the blinky example: leaf `led_on` under superstate
`blinking` (main.rs: `initial = "State::led_on()"`,
`#[state(superstate = "blinking")] fn led_on`).  Payload and handler
responses are irrelevant to initialization. -/
def blinkyLedOn : Statig.Chain BlinkyKind Unit Unit :=
  .node .led_on () .super (.root .blinking () .super)

namespace Chain

variable {κ δ σ : Type}

theorem depth_pos (c : Chain κ δ σ) : 1 ≤ depth c := by
  cases c <;> simp [depth]

theorem kindsToRoot_length (c : Chain κ δ σ) :
    (kindsToRoot c).length = depth c := by
  induction c with
  | root k d r => rfl
  | node k d r p ih => simp [kindsToRoot, depth, ih]

theorem kindsToRoot_eq_cons (c : Chain κ δ σ) :
    kindsToRoot c = kind c :: kindsTail c := by
  cases c <;> rfl

theorem same_state_iff [DecidableEq κ] (s t : Chain κ δ σ) :
    same_state s t = true ↔ kind s = kind t := by
  simp [same_state]

theorem cadSpec_refl_aligned [DecidableEq κ] (s t : Chain κ δ σ)
    (hd : depth s = depth t) (hk : kind s = kind t) :
    cadSpec s t = depth s := by
  have hls := kindsToRoot_length s
  have hlt := kindsToRoot_length t
  have hmin : min (kindsToRoot s).length (kindsToRoot t).length
      = (kindsToRoot s).length := by omega
  simp only [cadSpec, hmin]
  rw [show (kindsToRoot s).length - (kindsToRoot s).length = 0 by omega,
    show (kindsToRoot t).length - (kindsToRoot s).length = 0 by omega,
    List.drop_zero, List.drop_zero, kindsToRoot_eq_cons s, kindsToRoot_eq_cons t,
    firstMatchDepth, if_pos hk]
  have : (kindsTail s).length + 1 = depth s := by
    have := kindsToRoot_length s
    rw [kindsToRoot_eq_cons s] at this
    simpa using this
  exact this

theorem cadSpec_eq_ne_node [DecidableEq κ] (ks kt : κ) (ds dt : δ)
    (rs rt : Response σ) (ps pt : Chain κ δ σ)
    (hd : depth (Chain.node ks ds rs ps) = depth (Chain.node kt dt rt pt))
    (hk : ks ≠ kt) :
    cadSpec (Chain.node ks ds rs ps) (Chain.node kt dt rt pt) = cadSpec ps pt := by
  have hps := kindsToRoot_length ps
  have hpt := kindsToRoot_length pt
  have hdep : depth ps = depth pt := by simp [depth] at hd; omega
  simp only [cadSpec, kindsToRoot, List.length_cons]
  rw [show min ((kindsToRoot ps).length + 1) ((kindsToRoot pt).length + 1)
      = (kindsToRoot ps).length + 1 by omega,
    show (kindsToRoot ps).length + 1 - ((kindsToRoot ps).length + 1) = 0 by omega,
    show (kindsToRoot pt).length + 1 - ((kindsToRoot ps).length + 1) = 0 by omega,
    List.drop_zero, List.drop_zero, firstMatchDepth, if_neg hk,
    show min (kindsToRoot ps).length (kindsToRoot pt).length
      = (kindsToRoot ps).length by omega,
    show (kindsToRoot ps).length - (kindsToRoot ps).length = 0 by omega,
    show (kindsToRoot pt).length - (kindsToRoot ps).length = 0 by omega,
    List.drop_zero, List.drop_zero]

theorem cadSpec_root_root_ne [DecidableEq κ] (ks kt : κ) (ds dt : δ)
    (rs rt : Response σ) (hk : ks ≠ kt) :
    cadSpec (Chain.root ks ds rs) (Chain.root kt dt rt : Chain κ δ σ) = 0 := by
  simp [cadSpec, kindsToRoot, firstMatchDepth, hk]

theorem cadSpec_gt [DecidableEq κ] (k : κ) (d : δ) (r : Response σ)
    (ps t : Chain κ δ σ) (hd : depth t < depth (Chain.node k d r ps)) :
    cadSpec (Chain.node k d r ps) t = cadSpec ps t := by
  have hps := kindsToRoot_length ps
  have ht := kindsToRoot_length t
  have hdt : depth t ≤ depth ps := by simp [depth] at hd; omega
  simp only [cadSpec, kindsToRoot, List.length_cons]
  rw [show min ((kindsToRoot ps).length + 1) (kindsToRoot t).length
      = (kindsToRoot t).length by omega,
    show min (kindsToRoot ps).length (kindsToRoot t).length
      = (kindsToRoot t).length by omega,
    show (kindsToRoot ps).length + 1 - (kindsToRoot t).length
      = ((kindsToRoot ps).length - (kindsToRoot t).length) + 1 by omega,
    List.drop_succ_cons]

theorem firstMatchDepth_comm [DecidableEq κ] :
    ∀ as bs : List κ, as.length = bs.length →
      firstMatchDepth as bs = firstMatchDepth bs as := by
  intro as
  induction as with
  | nil => intro bs h; cases bs <;> simp_all [firstMatchDepth]
  | cons a as ih =>
    intro bs h
    cases bs with
    | nil => simp at h
    | cons b bs =>
      simp only [List.length_cons] at h
      by_cases hab : a = b
      · subst hab
        simp [firstMatchDepth, h]
      · rw [firstMatchDepth, firstMatchDepth, if_neg hab,
          if_neg (Ne.symm hab), ih bs (by omega)]

theorem cadSpec_comm [DecidableEq κ] (s t : Chain κ δ σ) :
    cadSpec s t = cadSpec t s := by
  simp only [cadSpec]
  rw [Nat.min_comm (kindsToRoot t).length (kindsToRoot s).length]
  exact firstMatchDepth_comm _ _ (by
    simp only [List.length_drop]
    have h1 : min (kindsToRoot s).length (kindsToRoot t).length
        ≤ (kindsToRoot s).length := Nat.min_le_left _ _
    have h2 : min (kindsToRoot s).length (kindsToRoot t).length
        ≤ (kindsToRoot t).length := Nat.min_le_right _ _
    omega)

theorem cad_eq_cadSpec [DecidableEq κ] (s t : Chain κ δ σ) :
    common_ancestor_depth s t = cadSpec s t := by
  induction s, t using common_ancestor_depth.induct with
  | case1 source target hc hs =>
    have hd : depth source = depth target := Nat.compare_eq_eq.mp hc
    have hk : kind source = kind target := (same_state_iff source target).mp hs
    have hval : common_ancestor_depth source target = depth source := by
      cases source <;> cases target <;> simp [common_ancestor_depth, hc, hs]
    rw [hval, cadSpec_refl_aligned source target hd hk]
  | case2 ks ds rs ps kt dt rt pt hc hs ih =>
    have hd : depth (Chain.node ks ds rs ps) = depth (Chain.node kt dt rt pt) :=
      Nat.compare_eq_eq.mp hc
    have hk : ks ≠ kt := by
      intro h
      exact hs ((same_state_iff _ _).mpr (by simpa [kind] using h))
    have hval : common_ancestor_depth (Chain.node ks ds rs ps) (Chain.node kt dt rt pt)
        = common_ancestor_depth ps pt := by
      simp [common_ancestor_depth, hc, hs]
    rw [hval, ih, cadSpec_eq_ne_node ks kt ds dt rs rt ps pt hd hk]
  | case3 source target hc hs hnn =>
    have hd : depth source = depth target := Nat.compare_eq_eq.mp hc
    cases source with
    | root ks ds rs =>
      cases target with
      | root kt dt rt =>
        have hk : ks ≠ kt := by
          intro h
          exact hs ((same_state_iff _ _).mpr (by simpa [kind] using h))
        have hval : common_ancestor_depth (Chain.root ks ds rs)
            (Chain.root kt dt rt : Chain κ δ σ) = 0 := by
          simp [common_ancestor_depth, hc, hs]
        rw [hval, cadSpec_root_root_ne ks kt ds dt rs rt hk]
      | node kt dt rt pt =>
        have := depth_pos pt
        simp [depth] at hd
        omega
    | node ks ds rs ps =>
      cases target with
      | root kt dt rt =>
        have := depth_pos ps
        simp [depth] at hd
        omega
      | node kt dt rt pt => exact absurd rfl (hnn ks ds rs ps kt dt rt pt rfl)
  | case4 target ks ds rs ps hc ih =>
    have hd : depth target < depth (Chain.node ks ds rs ps) := Nat.compare_eq_gt.mp hc
    have hval : common_ancestor_depth (Chain.node ks ds rs ps) target
        = common_ancestor_depth ps target := by
      cases target <;> simp [common_ancestor_depth, hc]
    rw [hval, ih, cadSpec_gt ks ds rs ps target hd]
  | case5 target ks ds rs hc =>
    have hd : depth target < depth (Chain.root ks ds rs : Chain κ δ σ) :=
      Nat.compare_eq_gt.mp hc
    have := depth_pos target
    simp [depth] at hd
    omega
  | case6 source kt dt rt pt hc ih =>
    have hd : depth source < depth (Chain.node kt dt rt pt) := Nat.compare_eq_lt.mp hc
    have hval : common_ancestor_depth source (Chain.node kt dt rt pt)
        = common_ancestor_depth source pt := by
      cases source <;> simp [common_ancestor_depth, hc]
    rw [hval, ih, cadSpec_comm source (Chain.node kt dt rt pt),
      cadSpec_gt kt dt rt pt source hd, cadSpec_comm pt source]
  | case7 source kt dt rt hc =>
    have hd : depth source < depth (Chain.root kt dt rt : Chain κ δ σ) :=
      Nat.compare_eq_lt.mp hc
    have := depth_pos source
    simp [depth] at hd
    omega

theorem exit_eq_take (c : Chain κ δ σ) :
    ∀ n : Nat, Chain.exit c n = ((kindsToRoot c).take n).map Ev.exit := by
  induction c with
  | root k d r =>
    intro n
    match n with
    | 0 => rfl
    | 1 => rfl
    | n + 2 => simp [Chain.exit, kindsToRoot, kind]
  | node k d r p ih =>
    intro n
    match n with
    | 0 => rfl
    | 1 => rfl
    | n + 2 => simp [Chain.exit, kindsToRoot, kind, ih (n + 1)]

theorem enter_eq_take (c : Chain κ δ σ) :
    ∀ n : Nat, enter c n = ((kindsToRoot c).take n).reverse.map Ev.entry := by
  induction c with
  | root k d r =>
    intro n
    match n with
    | 0 => rfl
    | 1 => rfl
    | n + 2 => simp [enter, kindsToRoot, kind]
  | node k d r p ih =>
    intro n
    match n with
    | 0 => rfl
    | 1 => rfl
    | n + 2 => simp [enter, kindsToRoot, kind, ih (n + 1)]

theorem exit_length (c : Chain κ δ σ) (n : Nat) :
    (Chain.exit c n).length = min n (depth c) := by
  rw [exit_eq_take c n]
  simp [kindsToRoot_length]

theorem enter_length (c : Chain κ δ σ) (n : Nat) :
    (enter c n).length = min n (depth c) := by
  rw [enter_eq_take c n]
  simp [kindsToRoot_length]

theorem visitedSpec_node_super (k : κ) (d : δ) (p : Chain κ δ σ) :
    visitedSpec (Chain.node k d Response.super p)
      = Chain.node k d Response.super p :: visitedSpec p := by
  simp [visitedSpec, levelsToRoot, isSuper, resp]

theorem finalRespSpec_node_super (k : κ) (d : δ) (p : Chain κ δ σ) :
    finalRespSpec (Chain.node k d Response.super p) = finalRespSpec p := by
  simp [finalRespSpec, levelsToRoot, isSuper, resp]

theorem handle_trace_spec (c : Chain κ δ σ) :
    Ev.dispatchHook (kind c) :: (handle c).1
        = (visitedSpec c).flatMap
            (fun l => [Ev.dispatchHook (kind l), Ev.handlerRun (kind l)])
      ∧ (handle c).2 = finalRespSpec c := by
  induction c with
  | root k d r =>
    cases r <;>
      simp [handle, visitedSpec, levelsToRoot, isSuper, resp, kind, finalRespSpec]
  | node k d r p ih =>
    cases r with
    | handled =>
      simp [handle, visitedSpec, levelsToRoot, isSuper, resp, kind, finalRespSpec]
    | transition s =>
      simp [handle, visitedSpec, levelsToRoot, isSuper, resp, kind, finalRespSpec]
    | super =>
      refine ⟨?_, ?_⟩
      · rw [visitedSpec_node_super, List.flatMap_cons, ← ih.1]
        simp [handle, kind]
      · rw [finalRespSpec_node_super]
        simpa [handle] using ih.2

end Chain

namespace Graph

variable {κ : Type}

theorem depthFuel_isSome (parent : κ → Option κ) (rank : κ → Nat)
    (hrank : ∀ k p, parent k = some p → rank p < rank k) :
    ∀ (fuel : Nat) (k : κ), rank k < fuel → (depthFuel parent fuel k).isSome := by
  intro fuel
  induction fuel with
  | zero => intro k h; omega
  | succ f ih =>
    intro k h
    cases hp : parent k with
    | none => simp [depthFuel, hp]
    | some p =>
      have hpf : rank p < f := by
        have := hrank k p hp
        omega
      obtain ⟨v, hv⟩ := Option.isSome_iff_exists.mp (ih p hpf)
      simp [depthFuel, hp, hv]

theorem cadFuel_succ_some (parent : κ → Option κ) [DecidableEq κ]
    (f : Nat) (s t : κ) (ds dt : Nat)
    (hds : depthFuel parent (f + 1) s = some ds)
    (hdt : depthFuel parent (f + 1) t = some dt) :
    cadFuel parent (f + 1) s t =
      match compare ds dt with
      | .eq =>
        if s = t then some ds
        else
          match parent s, parent t with
          | some ps, some pt => cadFuel parent f ps pt
          | _, _ => some 0
      | .gt =>
        match parent s with
        | some ps => cadFuel parent f ps t
        | none => some 0
      | .lt =>
        match parent t with
        | some pt => cadFuel parent f s pt
        | none => some 0 := by
  rw [cadFuel, hds, hdt]

theorem cadFuel_isSome (parent : κ → Option κ) [DecidableEq κ] (rank : κ → Nat)
    (hrank : ∀ k p, parent k = some p → rank p < rank k) :
    ∀ (fuel : Nat) (s t : κ), rank s + rank t < fuel →
      (cadFuel parent fuel s t).isSome := by
  intro fuel
  induction fuel with
  | zero => intro s t h; omega
  | succ f ih =>
    intro s t h
    have hds : (depthFuel parent (f + 1) s).isSome :=
      depthFuel_isSome parent rank hrank (f + 1) s (by omega)
    have hdt : (depthFuel parent (f + 1) t).isSome :=
      depthFuel_isSome parent rank hrank (f + 1) t (by omega)
    obtain ⟨ds, hds⟩ := Option.isSome_iff_exists.mp hds
    obtain ⟨dt, hdt⟩ := Option.isSome_iff_exists.mp hdt
    rw [cadFuel_succ_some parent f s t ds dt hds hdt]
    split
    · by_cases hst : s = t
      · simp [hst]
      · rw [if_neg hst]
        cases hps : parent s with
        | none => cases hpt : parent t <;> simp
        | some ps =>
          cases hpt : parent t with
          | none => simp
          | some pt =>
            have h1 := hrank s ps hps
            have h2 := hrank t pt hpt
            exact ih ps pt (by omega)
    · cases hps : parent s with
      | none => simp
      | some ps =>
        have h1 := hrank s ps hps
        exact ih ps t (by omega)
    · cases hpt : parent t with
      | none => simp
      | some pt =>
        have h2 := hrank t pt hpt
        exact ih s pt (by omega)

theorem depthFuel_none (parent : κ → Option κ) (f : Nat → κ)
    (hf : ∀ i, parent (f i) = some (f (i + 1))) :
    ∀ (fuel : Nat) (i : Nat), depthFuel parent fuel (f i) = none := by
  intro fuel
  induction fuel with
  | zero => intro i; rfl
  | succ n ih =>
    intro i
    simp [depthFuel, hf i, ih (i + 1)]

theorem cadFuel_none (parent : κ → Option κ) [DecidableEq κ] (f : Nat → κ)
    (hf : ∀ i, parent (f i) = some (f (i + 1))) :
    ∀ fuel : Nat, cadFuel parent fuel (f 0) (f 0) = none := by
  intro fuel
  cases fuel with
  | zero => rfl
  | succ n =>
    rw [cadFuel, depthFuel_none parent f hf (n + 1) 0]

end Graph

end Statig

/-!
## The claims
-/

/-- Claim C1: for every pair of superstate chains, `common_ancestor_depth`
returns exactly what the spec's simultaneous-climb algorithm prescribes
(`cadSpec`): climb the deeper chain one level at a time without comparing
until the depths agree, then compare variant identities level by level
while climbing both chains together, returning the shared depth at the
first identity match and 0 when the root is reached without one. -/
theorem common_ancestor_depth_follows_simultaneous_climb
    {κ δ σ : Type} [DecidableEq κ] (source target : Statig.Chain κ δ σ) :
    Statig.Chain.common_ancestor_depth source target
      = Statig.Chain.cadSpec source target :=
  Statig.Chain.cad_eq_cadSpec source target

/-- Claim C2: for every chain level `s` and count `n ≤ depth s`, `exit s n`
invokes exactly `n` exit actions, in strictly leaf-to-ancestor order (the
exit actions of the first `n` levels of the leaf-to-root chain, leaf
first); consequently, for any target `t`, exiting
`depth s - common_ancestor_depth s t` levels fires exactly that many exit
actions. -/
theorem exit_runs_leaf_to_ancestor {κ δ σ : Type} [DecidableEq κ]
    (s t : Statig.Chain κ δ σ) (n : Nat) (h : n ≤ Statig.Chain.depth s) :
    Statig.Chain.exit s n
        = ((Statig.Chain.kindsToRoot s).take n).map Statig.Ev.exit
      ∧ (Statig.Chain.exit s n).length = n
      ∧ (Statig.Chain.exit s
            (Statig.Chain.depth s - Statig.Chain.common_ancestor_depth s t)).length
          = Statig.Chain.depth s - Statig.Chain.common_ancestor_depth s t := by
  refine ⟨Statig.Chain.exit_eq_take s n, ?_, ?_⟩
  · rw [Statig.Chain.exit_length]
    omega
  · rw [Statig.Chain.exit_length]
    omega

theorem exit_runs_leaf_to_ancestor_witness :
    2 ≤ Statig.Chain.depth Statig.blinkyLedOn
  ∧ (Statig.Chain.exit Statig.blinkyLedOn 2
        = ((Statig.Chain.kindsToRoot Statig.blinkyLedOn).take 2).map Statig.Ev.exit
      ∧ (Statig.Chain.exit Statig.blinkyLedOn 2).length = 2
      ∧ (Statig.Chain.exit Statig.blinkyLedOn
            (Statig.Chain.depth Statig.blinkyLedOn
              - Statig.Chain.common_ancestor_depth Statig.blinkyLedOn
                  (Statig.Chain.root Statig.BlinkyKind.not_blinking ()
                    Statig.Response.super))).length
          = Statig.Chain.depth Statig.blinkyLedOn
              - Statig.Chain.common_ancestor_depth Statig.blinkyLedOn
                  (Statig.Chain.root Statig.BlinkyKind.not_blinking ()
                    Statig.Response.super)) :=
  ⟨by decide,
   exit_runs_leaf_to_ancestor Statig.blinkyLedOn
     (Statig.Chain.root Statig.BlinkyKind.not_blinking () Statig.Response.super)
     2 (by decide)⟩

/-- Claim C3: for every chain level `t` and count `n ≤ depth t`, `enter t n`
invokes exactly `n` entry actions, in strictly ancestor-to-leaf order
(outermost first, ending with `t`'s own entry action); and initialization
of the blinky machine (initial leaf `led_on` under superstate `blinking`)
fires exactly two entry actions, `blinking` then `led_on`, and no
`on_transition` hook. -/
theorem enter_runs_ancestor_to_leaf {κ δ σ : Type}
    (t : Statig.Chain κ δ σ) (n : Nat) (h : n ≤ Statig.Chain.depth t) :
    Statig.Chain.enter t n
        = ((Statig.Chain.kindsToRoot t).take n).reverse.map Statig.Ev.entry
      ∧ (Statig.Chain.enter t n).length = n
      ∧ Statig.Chain.initTrace Statig.blinkyLedOn
          = [Statig.Ev.entry Statig.BlinkyKind.blinking,
             Statig.Ev.entry Statig.BlinkyKind.led_on] := by
  refine ⟨Statig.Chain.enter_eq_take t n, ?_, by decide⟩
  rw [Statig.Chain.enter_length]
  omega

theorem enter_runs_ancestor_to_leaf_witness :
    2 ≤ Statig.Chain.depth Statig.blinkyLedOn
  ∧ (Statig.Chain.enter Statig.blinkyLedOn 2
        = ((Statig.Chain.kindsToRoot Statig.blinkyLedOn).take 2).reverse.map
            Statig.Ev.entry
      ∧ (Statig.Chain.enter Statig.blinkyLedOn 2).length = 2
      ∧ Statig.Chain.initTrace Statig.blinkyLedOn
          = [Statig.Ev.entry Statig.BlinkyKind.blinking,
             Statig.Ev.entry Statig.BlinkyKind.led_on]) :=
  ⟨by decide, enter_runs_ancestor_to_leaf Statig.blinkyLedOn 2 (by decide)⟩

/-- Claim C4: during a dispatch the `on_dispatch` hook fires exactly once
per level whose handler is invoked, in leaf-to-root order, each hook
immediately before that level's handler; the visited levels are exactly
the longest `Super`-answering prefix of the chain plus the first level
answering `Handled` or `Transition` (levels above are never visited), and
the dispatch returns that level's response. -/
theorem dispatch_hooks_once_per_visited_level {κ δ σ : Type}
    (c : Statig.Chain κ δ σ) :
    (Statig.Chain.dispatch c).1
        = (Statig.Chain.visitedSpec c).flatMap
            (fun l => [Statig.Ev.dispatchHook (Statig.Chain.kind l),
                       Statig.Ev.handlerRun (Statig.Chain.kind l)])
      ∧ (Statig.Chain.dispatch c).2 = Statig.Chain.finalRespSpec c :=
  ⟨(Statig.Chain.handle_trace_spec c).1, (Statig.Chain.handle_trace_spec c).2⟩

/-- Claim C5: when every level up to the root answers `Super`, the dispatch
returns `Super` (superstate.rs:117 — the root has no superstate), and the
outcome is exactly that of a `Handled` response from the implicit root's
handler (`impl Superstate for ()`): no transition, no error. -/
theorem all_super_absorbed_as_handled {κ δ σ : Type} (c : Statig.Chain κ δ σ)
    (h : ∀ l ∈ Statig.Chain.levelsToRoot c,
        Statig.Chain.resp l = Statig.Response.super) :
    (Statig.Chain.dispatch c).2 = Statig.Response.super
      ∧ Statig.Chain.outcome (Statig.Chain.dispatch c).2 = none
      ∧ Statig.Chain.outcome (Statig.Chain.dispatch c).2
          = Statig.Chain.outcome (Statig.Chain.unitCallHandler : Statig.Response σ) := by
  have hnil : (Statig.Chain.levelsToRoot c).dropWhile
      (fun l => Statig.Chain.isSuper (Statig.Chain.resp l)) = [] :=
    List.dropWhile_eq_nil_iff.mpr (fun x hx => by
      rw [h x hx]
      rfl)
  have hresp : (Statig.Chain.dispatch c).2 = Statig.Response.super := by
    have h2 := (Statig.Chain.handle_trace_spec c).2
    show (Statig.Chain.handle c).2 = Statig.Response.super
    rw [h2]
    simp [Statig.Chain.finalRespSpec, hnil]
  exact ⟨hresp, by rw [hresp]; rfl, by rw [hresp]; rfl⟩

theorem all_super_absorbed_as_handled_witness :
    (∀ l ∈ Statig.Chain.levelsToRoot Statig.blinkyLedOn,
        Statig.Chain.resp l = Statig.Response.super)
  ∧ ((Statig.Chain.dispatch Statig.blinkyLedOn).2 = Statig.Response.super
      ∧ Statig.Chain.outcome (Statig.Chain.dispatch Statig.blinkyLedOn).2 = none
      ∧ Statig.Chain.outcome (Statig.Chain.dispatch Statig.blinkyLedOn).2
          = Statig.Chain.outcome
              (Statig.Chain.unitCallHandler : Statig.Response Unit)) :=
  ⟨by decide, all_super_absorbed_as_handled Statig.blinkyLedOn (by decide)⟩

/-- Claim C6: for every superstate chain `s`,
`common_ancestor_depth s s = depth s` — the self-transition identity case,
in which `depth s - common_ancestor_depth s s = 0` exit and entry actions
would fire. -/
theorem common_ancestor_depth_self {κ δ σ : Type} [DecidableEq κ]
    (s : Statig.Chain κ δ σ) :
    Statig.Chain.common_ancestor_depth s s = Statig.Chain.depth s := by
  rw [Statig.Chain.cad_eq_cadSpec]
  exact Statig.Chain.cadSpec_refl_aligned s s rfl rfl

/-- Claim C7: `common_ancestor_depth` is symmetric in its two arguments. -/
theorem common_ancestor_depth_comm {κ δ σ : Type} [DecidableEq κ]
    (a b : Statig.Chain κ δ σ) :
    Statig.Chain.common_ancestor_depth a b
      = Statig.Chain.common_ancestor_depth b a := by
  rw [Statig.Chain.cad_eq_cadSpec, Statig.Chain.cad_eq_cadSpec,
    Statig.Chain.cadSpec_comm]

/-- Claim C8: `same_state` compares two superstate values only by variant
identity: equal kinds always yield `true`, different kinds always yield
`false`, and the result is unchanged under any variation of the data the
values carry (payload, handler response, ancestor chain) as long as the
kinds agree pairwise — a two-run noninterference statement. -/
theorem same_state_kind_only {κ δ σ : Type} [DecidableEq κ]
    (a b a' b' : Statig.Chain κ δ σ) :
    (Statig.Chain.kind a = Statig.Chain.kind b
        → Statig.Chain.same_state a b = true)
  ∧ (Statig.Chain.kind a ≠ Statig.Chain.kind b
        → Statig.Chain.same_state a b = false)
  ∧ (Statig.Chain.kind a = Statig.Chain.kind a'
        → Statig.Chain.kind b = Statig.Chain.kind b'
        → Statig.Chain.same_state a b = Statig.Chain.same_state a' b') := by
  refine ⟨fun h => ?_, fun h => ?_, fun h1 h2 => ?_⟩ <;>
    simp [Statig.Chain.same_state, *]

theorem same_state_kind_only_witness :
    Statig.Chain.same_state
        (Statig.Chain.root Statig.BlinkyKind.led_on 5 Statig.Response.super
          : Statig.Chain Statig.BlinkyKind Nat Unit)
        (Statig.Chain.node Statig.BlinkyKind.led_on 9 Statig.Response.handled
          (Statig.Chain.root Statig.BlinkyKind.blinking 0 Statig.Response.super))
      = true
  ∧ Statig.Chain.same_state
        (Statig.Chain.root Statig.BlinkyKind.led_on 5 Statig.Response.super
          : Statig.Chain Statig.BlinkyKind Nat Unit)
        (Statig.Chain.root Statig.BlinkyKind.blinking 5 Statig.Response.super)
      = false :=
  ⟨(same_state_kind_only
      (Statig.Chain.root Statig.BlinkyKind.led_on 5 Statig.Response.super)
      (Statig.Chain.node Statig.BlinkyKind.led_on 9 Statig.Response.handled
        (Statig.Chain.root Statig.BlinkyKind.blinking 0 Statig.Response.super))
      (Statig.Chain.root Statig.BlinkyKind.led_on 5 Statig.Response.super)
      (Statig.Chain.root Statig.BlinkyKind.blinking 5 Statig.Response.super)).1
      (by decide),
   (same_state_kind_only
      (Statig.Chain.root Statig.BlinkyKind.led_on 5 Statig.Response.super)
      (Statig.Chain.root Statig.BlinkyKind.blinking 5 Statig.Response.super)
      (Statig.Chain.root Statig.BlinkyKind.led_on 5 Statig.Response.super)
      (Statig.Chain.root Statig.BlinkyKind.blinking 5 Statig.Response.super)).2.1
      (by decide)⟩

/-- Claim C9: over the declaration graph (`parent` being the
`superstate()` link), `depth` and `common_ancestor_depth` terminate on
every input whenever the graph is acyclic — witnessed by any rank function
decreasing along parent links, enough fuel always yields `some` — while on
a graph with a cycle (an infinite parent walk) the very same recursions
never produce a result for any amount of fuel: the core performs no
runtime cycle detection, the computation simply diverges. -/
theorem depth_cad_terminate_acyclic_diverge_cyclic {κ : Type} [DecidableEq κ]
    (parent : κ → Option κ) :
    (∀ rank : κ → Nat, (∀ k p, parent k = some p → rank p < rank k) →
        (∀ k fuel, rank k < fuel → (Statig.Graph.depthFuel parent fuel k).isSome)
      ∧ (∀ s t fuel, rank s + rank t < fuel →
            (Statig.Graph.cadFuel parent fuel s t).isSome))
  ∧ (∀ f : Nat → κ, (∀ i, parent (f i) = some (f (i + 1))) →
        (∀ fuel, Statig.Graph.depthFuel parent fuel (f 0) = none)
      ∧ (∀ fuel, Statig.Graph.cadFuel parent fuel (f 0) (f 0) = none)) := by
  constructor
  · intro rank hrank
    exact ⟨fun k fuel h => Statig.Graph.depthFuel_isSome parent rank hrank fuel k h,
           fun s t fuel h => Statig.Graph.cadFuel_isSome parent rank hrank fuel s t h⟩
  · intro f hf
    exact ⟨fun fuel => Statig.Graph.depthFuel_none parent f hf fuel 0,
           fun fuel => Statig.Graph.cadFuel_none parent f hf fuel⟩

theorem depth_cad_terminate_acyclic_diverge_cyclic_witness :
    (Statig.Graph.depthFuel Statig.parentAcyclic 2 1).isSome = true
  ∧ (Statig.Graph.cadFuel Statig.parentAcyclic 2 1 0).isSome = true
  ∧ Statig.Graph.depthFuel Statig.parentCyclic 3 (Statig.cycleWalk 0) = none
  ∧ Statig.Graph.cadFuel Statig.parentCyclic 3 (Statig.cycleWalk 0)
      (Statig.cycleWalk 0) = none := by
  have hA := (depth_cad_terminate_acyclic_diverge_cyclic Statig.parentAcyclic).1
    Statig.rankAcyclic (by decide)
  have hC := (depth_cad_terminate_acyclic_diverge_cyclic Statig.parentCyclic).2
    Statig.cycleWalk (fun i => rfl)
  exact ⟨hA.1 1 2 (by decide), hA.2 1 0 2 (by decide), hC.1 3, hC.2 3⟩

/-- Claim C10: `enter` and `exit` accept any level count `n`, even one
exceeding the chain's depth: they stop climbing when `superstate()` is
`None`, completing normally and firing exactly `min n (depth c)` entry
(resp. exit) actions — the trace equations hold for every `n`
unconditionally. -/
theorem enter_exit_clamp_levels {κ δ σ : Type}
    (c : Statig.Chain κ δ σ) (n : Nat) :
    Statig.Chain.enter c n
        = ((Statig.Chain.kindsToRoot c).take n).reverse.map Statig.Ev.entry
      ∧ Statig.Chain.exit c n
          = ((Statig.Chain.kindsToRoot c).take n).map Statig.Ev.exit
      ∧ (Statig.Chain.enter c n).length = min n (Statig.Chain.depth c)
      ∧ (Statig.Chain.exit c n).length = min n (Statig.Chain.depth c) :=
  ⟨Statig.Chain.enter_eq_take c n, Statig.Chain.exit_eq_take c n,
   Statig.Chain.enter_length c n, Statig.Chain.exit_length c n⟩
